import Mathlib

set_option maxRecDepth 100000

/-!
# Verification of the lsp-poc repository

Shallow embedding, in Lean 4, of the lsp-poc proof-of-concept bridge:

* the JSON-RPC stream framer of the standalone test client
  (`test-client-standalone.js`, `SimpleJsonRpcClient.processBuffer` /
  `sendRequest`);
* the workspace-derived transport-endpoint namer (`generatePipeName`, in
  both the extension and the standalone client), including a concrete MD5
  model for the 8-hex-character hash prefix;
* the symbol resolver and reference aggregator of the two named-pipe
  extension variants (`handleFindReferences`, `findSymbolLocation`,
  `findSymbolInDocuments`, `findSymbolInTree` in `test-sample.ts`) and of
  the HTTP variant (`src/extension.ts`, `app.post('/api/findReferences')`).

JavaScript strings are modelled as `List Char` (code points; all inputs of
interest are in the Basic Multilingual Plane, where JavaScript's UTF-16
units coincide with code points).  The external language-intelligence
engine (workspace symbol index, reference provider, document symbols,
hover) is modelled as data supplied to the handlers: an `Engine` record
plus per-document capability fields.
-/

namespace LspPoc

/-! ## JSON-RPC stream framer (`test-client-standalone.js`)

`SimpleJsonRpcClient` keeps a string `buffer`; incoming socket chunks are
appended and `processBuffer` repeatedly extracts complete
`Content-Length`-framed messages.  We model the buffer as `List Char` and
message extraction at the framing level: the extracted message bodies, in
order. -/

/-- The header terminator `"\r\n\r\n"`. -/
def term4 : List Char := ['\r', '\n', '\r', '\n']

/-- `startsWith l p`: does `l` begin with `p`?  (Character-exact.) -/
def startsWith : List Char → List Char → Bool
  | _, [] => true
  | [], _ :: _ => false
  | c :: cs, p :: ps => c = p && startsWith cs ps

/-- Index of the first occurrence of `"\r\n\r\n"` in the buffer, i.e.
`buffer.indexOf('\r\n\r\n')` of `processBuffer` (`none` for `-1`). -/
def findSub : List Char → Option Nat
  | [] => none
  | c :: cs => if startsWith (c :: cs) term4 then some 0 else (findSub cs).map (· + 1)

/-- The lowercase pattern of the header-field regex `/Content-Length: (\d+)/i`. -/
def clPattern : List Char := "content-length: ".data

/-- Case-insensitive anchored match of `p` (already lowercase) at the head
of `l`, as the regex engine does for the literal part of the pattern. -/
def matchesInsensAt : List Char → List Char → Bool
  | _, [] => true
  | [], _ :: _ => false
  | c :: cs, p :: ps => (c.toLower = p) && matchesInsensAt cs ps

/-- Maximal leading run of decimal digits, the capture group `(\d+)`. -/
def takeDigits : List Char → List Char
  | [] => []
  | c :: cs => if c.isDigit then c :: takeDigits cs else []

/-- Decimal value of a digit string, as `parseInt` computes it on the
capture group. -/
def digitsToNat (ds : List Char) : Nat :=
  ds.foldl (fun acc c => acc * 10 + (c.toNat - 48)) 0

/-- `headers.match(/Content-Length: (\d+)/i)`: search the header block for
the first position where `Content-Length: ` (case-insensitive) is followed
by at least one digit; return the numeric value of the digit run. -/
def parseContentLength : List Char → Option Nat
  | [] => none
  | c :: cs =>
    if matchesInsensAt (c :: cs) clPattern then
      let ds := takeDigits ((c :: cs).drop clPattern.length)
      if ds.isEmpty then parseContentLength cs else some (digitsToNat ds)
    else parseContentLength cs

/-- Body of one `processBuffer` loop iteration once the terminator has
been located at `headerEnd`.  A header block without a valid
`Content-Length` is discarded
(`this.buffer = this.buffer.substring(headerEnd + 4); continue`); an
incomplete body (`this.buffer.length < messageEnd`) is a `break` (`none`). -/
def stepBufAt (buf : List Char) (headerEnd : Nat) :
    Option (Option (List Char) × List Char) :=
  match parseContentLength (buf.take headerEnd) with
  | none => some (none, buf.drop (headerEnd + 4))
  | some n =>
    if buf.length < headerEnd + 4 + n then none
    else some (some ((buf.drop (headerEnd + 4)).take n), buf.drop (headerEnd + 4 + n))

/-- One iteration of the `while (true)` loop of `processBuffer`:
`none` means `break` (no terminator, or incomplete body); otherwise the
optionally extracted message string and the remaining buffer. -/
def stepBuf (buf : List Char) : Option (Option (List Char) × List Char) :=
  match findSub buf with
  | none => none
  | some headerEnd => stepBufAt buf headerEnd

/-- Fuelled driver of the extraction loop.  Each productive iteration
drops at least the four terminator characters, so `buf.length + 1` fuel is
always enough (`runGo_congr`). -/
def runGo : Nat → List Char → List (List Char) → List Char × List (List Char)
  | 0, buf, recv => (buf, recv)
  | fuel + 1, buf, recv =>
    match stepBuf buf with
    | none => (buf, recv)
    | some (m, rest) => runGo fuel rest (recv ++ m.toList)

/-- `processBuffer`: run the extraction loop to quiescence, returning the
leftover buffer and the message strings extracted so far (in order). -/
def processBuffer (buf : List Char) (recv : List (List Char)) :
    List Char × List (List Char) :=
  runGo (buf.length + 1) buf recv

/-- The `socket.on('data', ...)` handler: append the chunk, re-run
`processBuffer`. -/
def feedChunk (st : List Char × List (List Char)) (chunk : List Char) :
    List Char × List (List Char) :=
  processBuffer (st.1 ++ chunk) st.2

/-- Deliver a list of chunks to a fresh client and collect its state. -/
def decodeStream (chunks : List (List Char)) : List Char × List (List Char) :=
  chunks.foldl feedChunk ([], [])

/-- UTF-8 byte width of a code point, as `Buffer.byteLength` counts it. -/
def utf8Width (c : Char) : Nat :=
  if c.toNat < 128 then 1 else if c.toNat < 2048 then 2
  else if c.toNat < 65536 then 3 else 4

/-- `Buffer.byteLength(content)`: UTF-8 byte length of a string. -/
def byteLength (s : List Char) : Nat := (s.map utf8Width).sum

/-- Digits of `n`, most significant first (fuelled; `fuel ≥ n` suffices). -/
def natDigitsAux : Nat → Nat → List Char
  | 0, _ => []
  | fuel + 1, n =>
    if n = 0 then [] else natDigitsAux fuel (n / 10) ++ [Char.ofNat (48 + n % 10)]

/-- Decimal string of `n`, as JavaScript template interpolation renders it. -/
def natDigits (n : Nat) : List Char :=
  if n = 0 then ['0'] else natDigitsAux (n + 1) n

/-- `sendRequest`'s framing: `Content-Length: ${Buffer.byteLength(content)}\r\n\r\n`
prefixed to the serialized body. -/
def encodeFrame (content : List Char) : List Char :=
  "Content-Length: ".data ++ natDigits (byteLength content) ++ term4 ++ content

/-- A concrete ASCII JSON-RPC body used by witnesses. -/
def jsonBodyEx : List Char := "\x7b\"jsonrpc\":\"2.0\",\"id\":1\x7d".data

/-- A second concrete ASCII body, for the C9 witness. -/
def jsonBodyEx2 : List Char := "\x7b\"jsonrpc\":\"2.0\",\"id\":2,\"result\":null\x7d".data

/-- A JSON-RPC body containing a non-ASCII character (`é`): its UTF-8 byte
length exceeds its character count. -/
def nonAsciiBody : List Char := "\x7b\"method\":\"é\"\x7d".data

/-! ## MD5 (the `crypto.createHash('md5')` capability)

`generatePipeName` keys the endpoint address on the first 8 hex characters
of the MD5 of the (platform-normalized) workspace path.  To settle the
claims about address equality/distinctness we model MD5 concretely,
following RFC 1321, over `Nat` with explicit `% 2^32`. -/

/-- `2^32`, the word modulus. -/
def M32 : Nat := 4294967296

/-- Addition modulo `2^32`. -/
def add32 (a b : Nat) : Nat := (a + b) % M32

/-- Bitwise complement of a 32-bit word. -/
def not32 (a : Nat) : Nat := 4294967295 - a

/-- Left-rotation of a 32-bit word by `n` bits. -/
def rotl32 (x n : Nat) : Nat := ((x <<< n) ||| (x >>> (32 - n))) % M32

/-- Per-step left-rotation amounts (RFC 1321). -/
def md5S : List Nat :=
  [7, 12, 17, 22, 7, 12, 17, 22, 7, 12, 17, 22, 7, 12, 17, 22,
   5, 9, 14, 20, 5, 9, 14, 20, 5, 9, 14, 20, 5, 9, 14, 20,
   4, 11, 16, 23, 4, 11, 16, 23, 4, 11, 16, 23, 4, 11, 16, 23,
   6, 10, 15, 21, 6, 10, 15, 21, 6, 10, 15, 21, 6, 10, 15, 21]

/-- Per-step additive constants `⌊2^32·|sin(i+1)|⌋` (RFC 1321). -/
def md5K : List Nat :=
  [3614090360, 3905402710, 606105819, 3250441966, 4118548399, 1200080426, 2821735955, 4249261313,
   1770035416, 2336552879, 4294925233, 2304563134, 1804603682, 4254626195, 2792965006, 1236535329,
   4129170786, 3225465664, 643717713, 3921069994, 3593408605, 38016083, 3634488961, 3889429448,
   568446438, 3275163606, 4107603335, 1163531501, 2850285829, 4243563512, 1735328473, 2368359562,
   4294588738, 2272392833, 1839030562, 4259657740, 2763975236, 1272893353, 4139469664, 3200236656,
   681279174, 3936430074, 3572445317, 76029189, 3654602809, 3873151461, 530742520, 3299628645,
   4096336452, 1126891415, 2878612391, 4237533241, 1700485571, 2399980690, 4293915773, 2240044497,
   1873313359, 4264355552, 2734768916, 1309151649, 4149444226, 3174756917, 718787259, 3951481745]

/-- The round function of step `i` applied to words `b`, `c`, `d`. -/
def md5F (i b c d : Nat) : Nat :=
  if i < 16 then (b &&& c) ||| (not32 b &&& d)
  else if i < 32 then (d &&& b) ||| (not32 d &&& c)
  else if i < 48 then b ^^^ c ^^^ d
  else c ^^^ (b ||| not32 d)

/-- The message-word index used at step `i`. -/
def md5G (i : Nat) : Nat :=
  if i < 16 then i
  else if i < 32 then (5 * i + 1) % 16
  else if i < 48 then (3 * i + 5) % 16
  else (7 * i) % 16

/-- One of the 64 steps of a block: rotate the state quadruple. -/
def md5Step (M : List Nat) (st : Nat × Nat × Nat × Nat) (i : Nat) :
    Nat × Nat × Nat × Nat :=
  match st with
  | (a, b, c, d) =>
    let f := add32 (add32 (add32 a (md5F i b c d)) (md5K.getD i 0)) (M.getD (md5G i) 0)
    (d, add32 b (rotl32 f (md5S.getD i 0)), b, c)

/-- Process one 16-word block, adding the result into the running state. -/
def md5ProcessBlock (st : Nat × Nat × Nat × Nat) (M : List Nat) :
    Nat × Nat × Nat × Nat :=
  match (List.range 64).foldl (md5Step M) st, st with
  | (a, b, c, d), (a0, b0, c0, d0) => (add32 a0 a, add32 b0 b, add32 c0 c, add32 d0 d)

/-- Little-endian bytes of `n`, `k` bytes long (truncating). -/
def leBytes : Nat → Nat → List Nat
  | 0, _ => []
  | k + 1, n => (n % 256) :: leBytes k (n / 256)

/-- Group a byte list into little-endian 32-bit words. -/
def toWordsLE : List Nat → List Nat
  | b0 :: b1 :: b2 :: b3 :: rest =>
    (b0 + 256 * b1 + 65536 * b2 + 16777216 * b3) :: toWordsLE rest
  | _ => []

/-- MD5 padding: `0x80`, zeros to 56 mod 64, then the 64-bit bit length. -/
def md5Pad (msg : List Nat) : List Nat :=
  msg ++ [128] ++ List.replicate ((120 - (msg.length + 1) % 64) % 64) 0
    ++ leBytes 8 (8 * msg.length)

/-- Chop a (padded) byte list into 64-byte blocks (fuelled). -/
def md5BlocksAux : Nat → List Nat → List (List Nat)
  | 0, _ => []
  | fuel + 1, bs => if bs.isEmpty then [] else bs.take 64 :: md5BlocksAux fuel (bs.drop 64)

/-- The 64-byte blocks of a padded message. -/
def md5Blocks (bs : List Nat) : List (List Nat) := md5BlocksAux bs.length bs

/-- The RFC 1321 initial state. -/
def md5Init : Nat × Nat × Nat × Nat := (1732584193, 4023233417, 2562383102, 271733878)

/-- The 16 digest bytes of a byte message. -/
def md5Digest (msg : List Nat) : List Nat :=
  match (md5Blocks (md5Pad msg)).foldl
      (fun st blk => md5ProcessBlock st (toWordsLE blk)) md5Init with
  | (a, b, c, d) => leBytes 4 a ++ leBytes 4 b ++ leBytes 4 c ++ leBytes 4 d

/-- Lowercase hex digit of `d < 16`. -/
def hexDigit (d : Nat) : Char := if d < 10 then Char.ofNat (48 + d) else Char.ofNat (87 + d)

/-- Two lowercase hex characters of a byte, as `digest('hex')` renders it. -/
def byteHex (b : Nat) : List Char := [hexDigit (b / 16), hexDigit (b % 16)]

/-- Lowercase hex string of a byte list (`Buffer.toString('hex')`). -/
def bytesToHex (bs : List Nat) : List Char := (bs.map byteHex).flatten

/-- `crypto.createHash('md5').update(s).digest('hex')` on a byte message. -/
def md5Hex (msg : List Nat) : List Char := bytesToHex (md5Digest msg)

/-- UTF-8 encoding of one code point. -/
def utf8Bytes (c : Char) : List Nat :=
  let n := c.toNat
  if n < 128 then [n]
  else if n < 2048 then [192 + n / 64, 128 + n % 64]
  else if n < 65536 then [224 + n / 4096, 128 + (n / 64) % 64, 128 + n % 64]
  else [240 + n / 262144, 128 + (n / 4096) % 64, 128 + (n / 64) % 64, 128 + n % 64]

/-- UTF-8 bytes of a string, as `hash.update(string)` consumes it. -/
def strBytes (s : List Char) : List Nat := (s.map utf8Bytes).flatten

/-! ## Endpoint namer (`generatePipeName`)

Two copies exist in the sources: the pipe-variant extension
(`test-sample.ts`, with a random fallback when no workspace is open) and
the standalone client (`test-client-standalone.js`, always hashing
`process.cwd()`).  `isWin32` models `process.platform === 'win32'`;
`rand` models the four bytes of `crypto.randomBytes(4)` — randomness is an
input of the model. -/

/-- `generatePipeName` of the pipe-variant extension. -/
def generatePipeName (isWin32 : Bool) (workspace : Option (List Char))
    (rand : List Nat) : List Char :=
  match workspace with
  | some ws =>
    let wsPath := if isWin32 then ws.map Char.toLower else ws
    let hash := (md5Hex (strBytes wsPath)).take 8
    if isWin32 then "\\\\.\\pipe\\forge-lsp-".data ++ hash
    else "/tmp/forge-lsp-".data ++ hash ++ ".sock".data
  | none =>
    let random := bytesToHex rand
    if isWin32 then "\\\\.\\pipe\\forge-lsp-".data ++ random
    else "/tmp/forge-lsp-".data ++ random ++ ".sock".data

/-- `generatePipeName` of the standalone client: identical derivation from
`process.cwd()`, no fallback branch. -/
def clientGeneratePipeName (isWin32 : Bool) (cwd : List Char) : List Char :=
  let wsPath := if isWin32 then cwd.map Char.toLower else cwd
  let hash := (md5Hex (strBytes wsPath)).take 8
  if isWin32 then "\\\\.\\pipe\\forge-lsp-".data ++ hash
  else "/tmp/forge-lsp-".data ++ hash ++ ".sock".data

/-- Lowercase-hex-digit predicate (output alphabet of `digest('hex')`). -/
def isLowerHex (c : Char) : Bool := c.isDigit || ('a' ≤ c && c ≤ 'f')

/-- First collision witness path: differs from `collisionPath2` only in
letter case, yet shares its first 8 MD5 hex characters. -/
def collisionPath1 : List Char := "/home/dev/projects/aBcDEfGhiJklMnOPqrstu".data

/-- Second collision witness path. -/
def collisionPath2 : List Char := "/home/dev/projects/abcdeFgHIJkLmnOPqRstu".data

/-! ## Symbol resolver and reference aggregator

Data model for the engine-facing handlers.  The external
language-intelligence engine is data: an `Engine` record for the
workspace-level capabilities, and per-document capability fields
(document-symbol outline, hover) on `TextDocument`. -/

/-- A zero-indexed `vscode.Position`. -/
structure Pos where
  line : Nat
  character : Nat
deriving DecidableEq

/-- A `vscode.Range`; `stop` models the `end` field. -/
structure Range where
  start : Pos
  stop : Pos
deriving DecidableEq

/-- `vscode.SymbolInformation` as the workspace symbol index returns it:
name, numeric `SymbolKind`, and `location` (uri + range). -/
structure SymbolInformation where
  name : String
  kind : Nat
  uri : String
  range : Range
deriving DecidableEq

/-- `vscode.Location`; also the JSON shape of one serialized reference
(`{uri, range}`). -/
structure Location where
  uri : String
  range : Range
deriving DecidableEq

/-- `vscode.DocumentSymbol`: name, start of its `range`, nested children. -/
inductive DocumentSymbol where
  | node : String → Pos → List DocumentSymbol → DocumentSymbol

/-- The symbol's name. -/
def DocumentSymbol.name : DocumentSymbol → String
  | .node n _ _ => n

/-- The start of the symbol's declaration range (`symbol.range.start`). -/
def DocumentSymbol.rangeStart : DocumentSymbol → Pos
  | .node _ p _ => p

/-- The nested child symbols. -/
def DocumentSymbol.children : DocumentSymbol → List DocumentSymbol
  | .node _ _ cs => cs

/-- A currently-open `vscode.TextDocument`, with the engine's
per-document capability results supplied as data: `symbols` is what
`executeDocumentSymbolProvider` returns (`none` for `undefined`),
`hoverPositions` the positions at which `executeHoverProvider` returns a
non-empty array, `inWorkspace` whether
`vscode.workspace.getWorkspaceFolder(uri)` is defined. -/
structure TextDocument where
  scheme : String
  uri : String
  inWorkspace : Bool
  symbols : Option (List DocumentSymbol)
  text : List Char
  hoverPositions : List Pos

/-- The workspace-level engine capabilities: the workspace symbol index
(`executeWorkspaceSymbolProvider`, `none` for `undefined`) and the
reference provider (`executeReferenceProvider`). -/
structure Engine where
  workspaceSymbols : String → Option (List SymbolInformation)
  references : String → Pos → Option (List Location)

mutual

/-- `findSymbolInTree` (`test-sample.ts`, identical in both pipe
variants): the symbol itself first, then its children recursively, then
the following siblings.  (The source guards the child recursion with
`children && children.length > 0`; recursing into `[]` returns `none`,
which is the same.) -/
def findSymbolInTree : List DocumentSymbol → String → Option DocumentSymbol
  | [], _ => none
  | s :: rest, symbolName =>
    match findSymbolOne s symbolName with
    | some found => some found
    | none => findSymbolInTree rest symbolName

/-- One node of the tree: itself, else its children. -/
def findSymbolOne : DocumentSymbol → String → Option DocumentSymbol
  | .node nm p cs, symbolName =>
    if nm = symbolName then some (.node nm p cs) else findSymbolInTree cs symbolName

end

/-- `document.positionAt(offset)`: zero-indexed line/character at a
character offset. -/
def positionAt (text : List Char) (offset : Nat) : Pos :=
  (text.take offset).foldl
    (fun p c => if c = '\n' then ⟨p.line + 1, 0⟩ else ⟨p.line, p.character + 1⟩)
    ⟨0, 0⟩

/-- JavaScript `\w`: ASCII letters, digits, underscore. -/
def isWordChar (c : Char) : Bool := c.isAlphanum || c = '_'

/-- Whether the character at offset `i` exists and is a word character. -/
def isWordAt (text : List Char) (i : Nat) : Bool :=
  match text.get? i with
  | some c => isWordChar c
  | none => false

/-- JavaScript `\b`: a word/non-word transition at offset `i` (positions
outside the text count as non-word). -/
def boundaryAt (text : List Char) (i : Nat) : Bool :=
  (if i = 0 then false else isWordAt text (i - 1)) != isWordAt text i

/-- Does `\b<name>\b` — with `escapeRegExp(name)` making `name` literal —
match at offset `i`? -/
def matchesWordAt (text pat : List Char) (i : Nat) : Bool :=
  startsWith (text.drop i) pat && boundaryAt text i && boundaryAt text (i + pat.length)

/-- The least match offset `≥ start`, as `regex.exec` finds it. -/
def findMatchFrom (text pat : List Char) (start : Nat) : Option Nat :=
  (List.range (text.length + 1)).find? fun i =>
    decide (start ≤ i) && matchesWordAt text pat i

/-- The offsets produced by the `while ((match = regex.exec(text)))` loop
with the `g` flag: each search resumes at the end of the previous match
(fuelled; the offset strictly grows each step). -/
def execMatchesAux : Nat → List Char → List Char → Nat → List Nat
  | 0, _, _, _ => []
  | fuel + 1, text, pat, start =>
    match findMatchFrom text pat start with
    | none => []
    | some i => i :: execMatchesAux fuel text pat (i + pat.length)

/-- All `g`-flag matches of the literal word-bounded pattern.  (Callers
guarantee `pat` is non-empty; on an empty pattern the JavaScript loop
would not terminate, and we return no matches.) -/
def execMatches (text pat : List Char) : List Nat :=
  if pat.isEmpty then [] else execMatchesAux (text.length + 1) text pat 0

/-- Does the engine report hover contents at `p` in `doc`
(`executeHoverProvider` returns a non-empty array)? -/
def hoverAt (doc : TextDocument) (p : Pos) : Bool := doc.hoverPositions.contains p

/-- The per-document text scan of `findSymbolInDocuments`: walk the
`g`-flag regex matches in order, returning the first whose position has
hover information. -/
def scanTextAllMatches (doc : TextDocument) (symbolName : String) :
    Option (String × Pos) :=
  (execMatches doc.text symbolName.data).findSome? fun i =>
    let position := positionAt doc.text i
    if hoverAt doc position then some (doc.uri, position) else none

/-- The guarded tree lookup of `findSymbolInDocuments`:
`if (documentSymbols) { findSymbolInTree(documentSymbols, name) }`. -/
def docTreeLookup (doc : TextDocument) (symbolName : String) : Option DocumentSymbol :=
  match doc.symbols with
  | some documentSymbols => findSymbolInTree documentSymbols symbolName
  | none => none

/-- `findSymbolInDocuments` (`test-sample.ts` lines 229–281): scan every
open document, skipping non-`file` schemes; per document the symbol tree
(when the provider returned one), then the text scan over all matches. -/
def findSymbolInDocuments (docs : List TextDocument) (symbolName : String) :
    Option (String × Pos) :=
  docs.findSome? fun doc =>
    if doc.scheme ≠ "file" then none
    else
      match docTreeLookup doc symbolName with
      | some found => some (doc.uri, found.rangeStart)
      | none => scanTextAllMatches doc symbolName

/-- The document scan of `findSymbolLocation` (`test-sample.ts`
lines 478–517): additionally requires the document to lie within a
workspace folder, and probes hover only at the *first* regex match
(the regex has no `g` flag there). -/
def scanDocsV2 (docs : List TextDocument) (symbolName : String) :
    Option (String × Pos) :=
  docs.findSome? fun doc =>
    if doc.scheme ≠ "file" then none
    else if !doc.inWorkspace then none
    else
      match findSymbolInTree (doc.symbols.getD []) symbolName with
      | some found => some (doc.uri, found.rangeStart)
      | none =>
        match findMatchFrom doc.text symbolName.data 0 with
        | some i =>
          let position := positionAt doc.text i
          if hoverAt doc position then some (doc.uri, position) else none
        | none => none

/-- Step 1 of the v1 pipe handler (`test-sample.ts` lines 143–160):
`if (symbols && symbols.length > 0)` then the exact case-sensitive
`symbols.find(s => s.name === symbolName)`. -/
def wsExactV1 (symbols : Option (List SymbolInformation)) (symbolName : String) :
    Option (String × Pos) :=
  match symbols with
  | some syms =>
    if 0 < syms.length then
      (syms.find? fun s => s.name = symbolName).map fun s => (s.uri, s.range.start)
    else none
  | none => none

/-- The exact-match step of `findSymbolLocation` (v2, lines 463–476):
`symbols?.find(s => s.name === symbolName)`. -/
def wsExactV2 (symbols : Option (List SymbolInformation)) (symbolName : String) :
    Option (String × Pos) :=
  ((symbols.getD []).find? fun s => s.name = symbolName).map fun s =>
    (s.uri, s.range.start)

/-- `if (a) ... else b` over optional locations: the first stage's result
when present, else the fallback's. -/
def firstSome (a b : Option (String × Pos)) : Option (String × Pos) :=
  match a with
  | some loc => some loc
  | none => b

/-- `findSymbolLocation` (`test-sample.ts` lines 463–517): workspace
index exact match first, then the restricted document scan. -/
def findSymbolLocation (eng : Engine) (docs : List TextDocument)
    (symbolName : String) : Option (String × Pos) :=
  firstSome (wsExactV2 (eng.workspaceSymbols symbolName) symbolName)
    (scanDocsV2 docs symbolName)

/-- The `symbol` part of a pipe-variant result. -/
structure SymbolOut where
  name : String
  uri : String
  position : Pos
deriving DecidableEq

/-- A v1 pipe result: the zero-reference shape carries `message` and *no*
`totalReferences`; the non-empty shape carries `totalReferences`. -/
inductive PipeResultV1 where
  | noRefs (symbol : SymbolOut) (references : List Location) (message : String)
  | withRefs (symbol : SymbolOut) (references : List Location) (totalReferences : Nat)
deriving DecidableEq

/-- The references list of a v1 pipe result. -/
def PipeResultV1.references : PipeResultV1 → List Location
  | .noRefs _ refs _ => refs
  | .withRefs _ refs _ => refs

/-- `FindReferencesResult` as the v2 pipe handler always shapes it. -/
structure FindReferencesResult where
  symbol : SymbolOut
  references : List Location
  totalReferences : Nat
deriving DecidableEq

deriving instance DecidableEq for Except

/-- Is the JavaScript string value falsy (`!symbolName`): absent
(`undefined`) or the empty string? -/
def jsFalsy (s : Option String) : Bool :=
  match s with
  | none => true
  | some str => str = ""

/-- Step 3 of the v1 pipe handler: aggregate the engine's references for
the resolved location (`!references || references.length === 0` gives the
message shape, otherwise the serialized list with its length). -/
def pipeV1OnRefs (symbolName uri : String) (position : Pos)
    (references : Option (List Location)) : Except String PipeResultV1 :=
  match references with
  | none => .ok (.noRefs ⟨symbolName, uri, position⟩ [] "Symbol found but no references")
  | some [] => .ok (.noRefs ⟨symbolName, uri, position⟩ [] "Symbol found but no references")
  | some refs => .ok (.withRefs ⟨symbolName, uri, position⟩ refs refs.length)

/-- The v1 pipe handler after resolution: throw when no location was
found, else aggregate references there. -/
def pipeV1OnLoc (eng : Engine) (symbolName : String)
    (symbolLocation : Option (String × Pos)) : Except String PipeResultV1 :=
  match symbolLocation with
  | none => .error
      s!"No symbol named \"{symbolName}\" found in the workspace or open documents"
  | some (uri, position) => pipeV1OnRefs symbolName uri position (eng.references uri position)

/-- `handleFindReferences` of the first pipe variant (`test-sample.ts`
lines 137–224): validation, exact index match, document-scan fallback,
then reference aggregation. -/
def handleFindReferencesV1 (eng : Engine) (docs : List TextDocument)
    (symbolName? : Option String) : Except String PipeResultV1 :=
  if jsFalsy symbolName? then .error "Missing required field: symbolName"
  else
    let symbolName := symbolName?.getD ""
    pipeV1OnLoc eng symbolName
      (firstSome (wsExactV1 (eng.workspaceSymbols symbolName) symbolName)
        (findSymbolInDocuments docs symbolName))

/-- The v2 pipe handler after resolution: throw when no location was
found; else `references: (references || []).map(...)` and
`totalReferences: references?.length || 0` (the source binds the engine
result once as `references`; it is written out twice here). -/
def pipeV2OnLoc (eng : Engine) (symbolName : String)
    (symbolLocation : Option (String × Pos)) : Except String FindReferencesResult :=
  match symbolLocation with
  | none => .error s!"No symbol named \"{symbolName}\" found in the workspace"
  | some (uri, position) =>
    .ok ⟨⟨symbolName, uri, position⟩, (eng.references uri position).getD [],
      match eng.references uri position with
      | some refs => refs.length
      | none => 0⟩

/-- `handleFindReferences` of the second pipe variant (`test-sample.ts`
lines 419–457). -/
def handleFindReferencesV2 (eng : Engine) (docs : List TextDocument)
    (symbolName? : Option String) : Except String FindReferencesResult :=
  if jsFalsy symbolName? then .error "Missing required field: symbolName"
  else
    let symbolName := symbolName?.getD ""
    pipeV2OnLoc eng symbolName (findSymbolLocation eng docs symbolName)

/-- The `vscode.SymbolKind` enumeration names, in numeric order. -/
def symbolKindNames : List String :=
  ["File", "Module", "Namespace", "Package", "Class", "Method", "Property", "Field",
   "Constructor", "Enum", "Interface", "Function", "Variable", "Constant", "String",
   "Number", "Boolean", "Array", "Object", "Key", "Null", "EnumMember", "Struct",
   "Event", "Operator", "TypeParameter"]

/-- The reverse-enum lookup `vscode.SymbolKind[symbol.kind]`
(`undefined` out of range). -/
def symbolKindName (kind : Nat) : String := symbolKindNames.getD kind "undefined"

/-- The serialized `symbol` of an HTTP response: name, kind string, uri,
full range. -/
structure HttpSymbolOut where
  name : String
  kind : String
  uri : String
  range : Range
deriving DecidableEq

/-- The responses of `POST /api/findReferences` (the model's engines are
total, so the `catch`-path 500 response never arises). -/
inductive HttpResponse where
  | badRequest (error : String) (exampleSymbolName : String)
  | notFound (error : String) (symbolName : String) (message : String)
  | okNoRefs (symbol : HttpSymbolOut) (references : List Location) (message : String)
  | okRefs (symbol : HttpSymbolOut) (references : List Location) (totalReferences : Nat)
deriving DecidableEq

/-- The HTTP status code of a response. -/
def HttpResponse.status : HttpResponse → Nat
  | .badRequest .. => 400
  | .notFound .. => 404
  | .okNoRefs .. => 200
  | .okRefs .. => 200

/-- The `symbol.name` of a 200 response, `none` otherwise. -/
def HttpResponse.okSymbolName : HttpResponse → Option String
  | .okNoRefs s _ _ => some s.name
  | .okRefs s _ _ => some s.name
  | _ => none

/-- Serialize a `SymbolInformation` as the HTTP handler does. -/
def serializeHttpSymbol (s : SymbolInformation) : HttpSymbolOut :=
  ⟨s.name, symbolKindName s.kind, s.uri, s.range⟩

/-- Step 2 of the HTTP handler: aggregate the references of the first
index result (`!references || references.length === 0` gives the message
shape). -/
def httpOnRefs (symbol : SymbolInformation) (references : Option (List Location)) :
    HttpResponse × List String :=
  match references with
  | none =>
    (.okNoRefs (serializeHttpSymbol symbol) [] "Symbol found but no references",
      ["executeWorkspaceSymbolProvider", "executeReferenceProvider"])
  | some [] =>
    (.okNoRefs (serializeHttpSymbol symbol) [] "Symbol found but no references",
      ["executeWorkspaceSymbolProvider", "executeReferenceProvider"])
  | some refs =>
    (.okRefs (serializeHttpSymbol symbol) refs refs.length,
      ["executeWorkspaceSymbolProvider", "executeReferenceProvider"])

/-- Step 1 of the HTTP handler: 404 on `!symbols || symbols.length === 0`,
else *use the first result* (`const symbol = symbols[0]`). -/
def httpOnSymbols (eng : Engine) (symbolName : String)
    (symbols : Option (List SymbolInformation)) : HttpResponse × List String :=
  match symbols with
  | none =>
    (.notFound "Symbol not found" symbolName
        s!"No symbol named \"{symbolName}\" found in the workspace",
      ["executeWorkspaceSymbolProvider"])
  | some [] =>
    (.notFound "Symbol not found" symbolName
        s!"No symbol named \"{symbolName}\" found in the workspace",
      ["executeWorkspaceSymbolProvider"])
  | some (symbol :: _) => httpOnRefs symbol (eng.references symbol.uri symbol.range.start)

/-- `app.post('/api/findReferences')` of the HTTP variant
(`src/extension.ts` lines 45–144), paired with the list of engine
commands it executed, in order. -/
def httpFindReferences (eng : Engine) (symbolName? : Option String) :
    HttpResponse × List String :=
  if jsFalsy symbolName? then
    (.badRequest "Missing required field: symbolName" "CustomeFormField", [])
  else
    let symbolName := symbolName?.getD ""
    httpOnSymbols eng symbolName (eng.workspaceSymbols symbolName)

/-- The routes `startServer` (`src/extension.ts`) registers on the
Express app. -/
def httpRoutes : List (String × String) :=
  [("GET", "/api/health"), ("POST", "/api/findReferences")]

/-- Written from the words of claim C4 (refinement reference): scan every
open document skipping only non-file-backed ones; per document first the
symbol tree (nested children included) for an exact name match, returning
its declaration start; only if that fails, the word-boundary regex search
returning the first text match at which hover information is present;
`none` when no document matches. -/
def specResolverScan (docs : List TextDocument) (symbolName : String) :
    Option (String × Pos) :=
  docs.findSome? fun doc =>
    if doc.scheme ≠ "file" then none
    else
      match findSymbolInTree (doc.symbols.getD []) symbolName with
      | some found => some (doc.uri, found.rangeStart)
      | none => scanTextAllMatches doc symbolName

/-- An engine with nothing indexed and no references. -/
def emptyEngine : Engine := ⟨fun _ => none, fun _ _ => none⟩

/-- An engine whose symbol index answers the query `greetUser` with a
single *fuzzy* (non-exact) result, as real workspace indexes do. -/
def fuzzyEngine : Engine :=
  ⟨fun q => if q = "greetUser" then
      some [⟨"greetUserHelper", 11, "file:///ws/helper.ts", ⟨⟨5, 0⟩, ⟨5, 15⟩⟩⟩]
    else none,
   fun _ _ => some []⟩

/-- An engine indexing `greetUser` exactly, with two references. -/
def exactEngine : Engine :=
  ⟨fun q => if q = "greetUser" then
      some [⟨"greetUser", 11, "file:///ws/test-sample.ts", ⟨⟨3, 9⟩, ⟨3, 18⟩⟩⟩]
    else none,
   fun u p => if u = "file:///ws/test-sample.ts" && p = (⟨3, 9⟩ : Pos) then
      some [⟨"file:///ws/test-sample.ts", ⟨⟨3, 9⟩, ⟨3, 18⟩⟩⟩,
        ⟨"file:///ws/test-sample.ts", ⟨⟨8, 18⟩, ⟨8, 27⟩⟩⟩]
    else none⟩

/-- A file-backed document outside every workspace folder whose outline
contains `greetUser`. -/
def outsideDoc : TextDocument :=
  ⟨"file", "file:///ext/lib.ts", false,
    some [.node "greetUser" ⟨3, 9⟩ []],
    "function greetUser(name) \x7b return name; \x7d".data, []⟩

/-- A workspace document whose *first* text match of `greetUser` (inside
a comment) has no hover, while the second (real code) does. -/
def hoverLaterDoc : TextDocument :=
  ⟨"file", "file:///ws/a.ts", true, some [],
    "// greetUser\ngreetUser()".data, [⟨1, 0⟩]⟩

/-- The v2 result the C10 witness exercises. -/
def witnessResult : FindReferencesResult :=
  ⟨⟨"greetUser", "file:///ws/test-sample.ts", ⟨3, 9⟩⟩,
    [⟨"file:///ws/test-sample.ts", ⟨⟨3, 9⟩, ⟨3, 18⟩⟩⟩,
      ⟨"file:///ws/test-sample.ts", ⟨⟨8, 18⟩, ⟨8, 27⟩⟩⟩], 2⟩

/-! ### Framer lemmas -/

theorem startsWith_length {l p : List Char} (h : startsWith l p = true) :
    p.length ≤ l.length := by
  induction p generalizing l with
  | nil => exact Nat.zero_le _
  | cons p ps ih =>
    cases l with
    | nil => simp [startsWith] at h
    | cons c cs =>
      simp only [startsWith, Bool.and_eq_true] at h
      simpa using ih h.2

theorem startsWith_append {l p : List Char} (e : List Char) (h : p.length ≤ l.length) :
    startsWith (l ++ e) p = startsWith l p := by
  induction p generalizing l with
  | nil => simp [startsWith]
  | cons p ps ih =>
    cases l with
    | nil => simp at h
    | cons c cs =>
      simp only [List.cons_append, startsWith, List.append_eq]
      rw [ih (by simpa using h)]

theorem startsWith_self_append (p e : List Char) : startsWith (p ++ e) p = true := by
  induction p with
  | nil => simp [startsWith]
  | cons c cs ih => simpa [startsWith, List.append_eq] using ih

theorem findSub_le {buf : List Char} {i : Nat} (h : findSub buf = some i) :
    i + 4 ≤ buf.length := by
  induction buf generalizing i with
  | nil => simp [findSub] at h
  | cons c cs ih =>
    simp only [findSub] at h
    split at h
    · next hs =>
      obtain rfl : i = 0 := by exact (Option.some.inj h).symm
      have h4 : term4.length ≤ (c :: cs).length := startsWith_length hs
      simpa [term4] using h4
    · next =>
      obtain ⟨j, hj, rfl⟩ : ∃ j, findSub cs = some j ∧ i = j + 1 := by
        cases hc : findSub cs with
        | none => rw [hc] at h; exact absurd h (by simp)
        | some j =>
          rw [hc] at h
          exact ⟨j, rfl, (Option.some.inj h).symm⟩
      have := ih hj
      simp only [List.length_cons]
      omega

theorem findSub_append {buf : List Char} {i : Nat} (e : List Char)
    (h : findSub buf = some i) : findSub (buf ++ e) = some i := by
  induction buf generalizing i with
  | nil => simp [findSub] at h
  | cons c cs ih =>
    have hlen : term4.length ≤ (c :: cs).length := by
      have h1 := findSub_le h
      have h2 : term4.length = 4 := rfl
      simp only [List.length_cons] at h1 ⊢
      omega
    rw [show (c :: cs) ++ e = c :: (cs ++ e) from rfl, findSub,
      show c :: (cs ++ e) = (c :: cs) ++ e from rfl, startsWith_append e hlen]
    simp only [findSub] at h
    split at h
    · next hs =>
      obtain rfl : i = 0 := (Option.some.inj h).symm
      rw [if_pos hs]
    · next hs =>
      obtain ⟨j, hj, rfl⟩ : ∃ j, findSub cs = some j ∧ i = j + 1 := by
        cases hc : findSub cs with
        | none => rw [hc] at h; exact absurd h (by simp)
        | some j =>
          rw [hc] at h
          exact ⟨j, rfl, (Option.some.inj h).symm⟩
      rw [if_neg hs, ih hj]
      rfl

theorem stepBuf_of_findSub {buf : List Char} {i : Nat} (hf : findSub buf = some i) :
    stepBuf buf = stepBufAt buf i := by
  unfold stepBuf
  rw [hf]

theorem stepBufAt_of_parse_none {buf : List Char} {i : Nat}
    (hp : parseContentLength (buf.take i) = none) :
    stepBufAt buf i = some (none, buf.drop (i + 4)) := by
  unfold stepBufAt
  rw [hp]

theorem stepBufAt_of_parse_some {buf : List Char} {i n : Nat}
    (hp : parseContentLength (buf.take i) = some n) :
    stepBufAt buf i = if buf.length < i + 4 + n then none
      else some (some ((buf.drop (i + 4)).take n), buf.drop (i + 4 + n)) := by
  unfold stepBufAt
  rw [hp]

theorem stepBuf_shrink {buf rest : List Char} {m : Option (List Char)}
    (h : stepBuf buf = some (m, rest)) : rest.length < buf.length := by
  unfold stepBuf at h
  split at h
  · exact absurd h (by simp)
  · next i hf =>
    have hi := findSub_le hf
    unfold stepBufAt at h
    split at h
    · have hr : rest = buf.drop (i + 4) :=
        (congrArg Prod.snd (Option.some.inj h)).symm
      rw [hr]
      simp only [List.length_drop]
      omega
    · next n hp =>
      split at h
      · exact absurd h (by simp)
      · have hr : rest = buf.drop (i + 4 + n) :=
          (congrArg Prod.snd (Option.some.inj h)).symm
        rw [hr]
        simp only [List.length_drop]
        omega

theorem runGo_congr : ∀ (k : Nat) (buf : List Char) (f₁ f₂ : Nat)
    (recv : List (List Char)), buf.length ≤ k → buf.length < f₁ → buf.length < f₂ →
    runGo f₁ buf recv = runGo f₂ buf recv := by
  intro k
  induction k with
  | zero =>
    intro buf f₁ f₂ recv hk h₁ h₂
    obtain rfl : buf = [] := List.length_eq_zero.mp (Nat.le_zero.mp hk)
    obtain ⟨a, rfl⟩ : ∃ a, f₁ = a + 1 := ⟨f₁ - 1, by omega⟩
    obtain ⟨b, rfl⟩ : ∃ b, f₂ = b + 1 := ⟨f₂ - 1, by omega⟩
    simp [runGo, stepBuf, findSub]
  | succ k ih =>
    intro buf f₁ f₂ recv hk h₁ h₂
    obtain ⟨a, rfl⟩ : ∃ a, f₁ = a + 1 := ⟨f₁ - 1, by omega⟩
    obtain ⟨b, rfl⟩ : ∃ b, f₂ = b + 1 := ⟨f₂ - 1, by omega⟩
    simp only [runGo]
    cases hs : stepBuf buf with
    | none => rfl
    | some pr =>
      obtain ⟨m, rest⟩ := pr
      have hlt := stepBuf_shrink hs
      exact ih rest a b (recv ++ m.toList) (by omega) (by omega) (by omega)

theorem processBuffer_none {buf : List Char} (recv : List (List Char))
    (h : stepBuf buf = none) : processBuffer buf recv = (buf, recv) := by
  simp [processBuffer, runGo, h]

theorem processBuffer_some {buf rest : List Char} {m : Option (List Char)}
    (recv : List (List Char)) (h : stepBuf buf = some (m, rest)) :
    processBuffer buf recv = processBuffer rest (recv ++ m.toList) := by
  have hlt := stepBuf_shrink h
  simp only [processBuffer, runGo, h]
  exact runGo_congr buf.length rest buf.length (rest.length + 1) _ (by omega) hlt (by omega)

theorem stepBuf_extend {buf rest : List Char} {m : Option (List Char)}
    (extra : List Char) (h : stepBuf buf = some (m, rest)) :
    stepBuf (buf ++ extra) = some (m, rest ++ extra) := by
  unfold stepBuf at h
  split at h
  · exact absurd h (by simp)
  · next i hf =>
    have hi := findSub_le hf
    rw [stepBuf_of_findSub (findSub_append extra hf)]
    have htake : (buf ++ extra).take i = buf.take i :=
      List.take_append_of_le_length (by omega)
    unfold stepBufAt at h
    split at h
    · next hp =>
      rw [stepBufAt_of_parse_none (by rw [htake]; exact hp)]
      have h1 : m = none := (congrArg Prod.fst (Option.some.inj h)).symm
      have h2 : rest = buf.drop (i + 4) := (congrArg Prod.snd (Option.some.inj h)).symm
      rw [h1, h2, List.drop_append_of_le_length (by omega)]
    · next n hp =>
      split at h
      · exact absurd h (by simp)
      · next hlen =>
        have h1 : m = some ((buf.drop (i + 4)).take n) :=
          (congrArg Prod.fst (Option.some.inj h)).symm
        have h2 : rest = buf.drop (i + 4 + n) :=
          (congrArg Prod.snd (Option.some.inj h)).symm
        rw [stepBufAt_of_parse_some (by rw [htake]; exact hp),
          if_neg (by simp only [List.length_append]; omega)]
        rw [h1, h2, @List.drop_append_of_le_length _ buf extra _ (by omega),
          @List.drop_append_of_le_length _ buf extra _ (by omega),
          List.take_append_of_le_length (by simp only [List.length_drop]; omega)]

theorem processBuffer_append : ∀ (k : Nat) (buf : List Char), buf.length ≤ k →
    ∀ (extra : List Char) (recv : List (List Char)),
    processBuffer ((processBuffer buf recv).1 ++ extra) (processBuffer buf recv).2
      = processBuffer (buf ++ extra) recv := by
  intro k
  induction k with
  | zero =>
    intro buf hk extra recv
    obtain rfl : buf = [] := List.length_eq_zero.mp (Nat.le_zero.mp hk)
    rw [processBuffer_none recv (by simp [stepBuf, findSub])]
  | succ k ih =>
    intro buf hk extra recv
    cases hs : stepBuf buf with
    | none => rw [processBuffer_none recv hs]
    | some pr =>
      obtain ⟨m, rest⟩ := pr
      have hlt := stepBuf_shrink hs
      rw [processBuffer_some recv hs,
        processBuffer_some recv (stepBuf_extend extra hs)]
      exact ih rest (by omega) extra (recv ++ m.toList)

theorem decodeStream_flatten (chunks : List (List Char)) :
    decodeStream chunks = processBuffer chunks.flatten [] := by
  have key : ∀ (cs : List (List Char)) (buf : List Char) (recv : List (List Char)),
      cs.foldl feedChunk (processBuffer buf recv) = processBuffer (buf ++ cs.flatten) recv := by
    intro cs
    induction cs with
    | nil => intro buf recv; simp
    | cons c cs ih =>
      intro buf recv
      simp only [List.foldl_cons, List.flatten_cons]
      rw [show feedChunk (processBuffer buf recv) c
          = processBuffer ((processBuffer buf recv).1 ++ c) (processBuffer buf recv).2 from rfl,
        processBuffer_append buf.length buf le_rfl c recv, ih (buf ++ c) recv,
        List.append_assoc]
  have h0 : (([], []) : List Char × List (List Char)) = processBuffer [] [] := by
    rw [processBuffer_none [] (by simp [stepBuf, findSub])]
  rw [decodeStream, h0, key, List.nil_append]

/-! ### Decoding an encoded frame -/

theorem digitCh_toNat : ∀ d < 10, (Char.ofNat (48 + d)).toNat = 48 + d := by decide

theorem digitCh_isDigit : ∀ d < 10, (Char.ofNat (48 + d)).isDigit = true := by decide

theorem foldl_natDigitsAux : ∀ (fuel n acc : Nat), n ≤ fuel →
    (natDigitsAux fuel n).foldl (fun acc c => acc * 10 + (c.toNat - 48)) acc
      = acc * 10 ^ (natDigitsAux fuel n).length + n := by
  intro fuel
  induction fuel with
  | zero =>
    intro n acc hn
    obtain rfl : n = 0 := Nat.le_zero.mp hn
    simp [natDigitsAux]
  | succ fuel ih =>
    intro n acc hn
    by_cases h0 : n = 0
    · subst h0; simp [natDigitsAux]
    · have hd : n % 10 < 10 := Nat.mod_lt _ (by norm_num)
      have hdiv : n / 10 ≤ fuel := by
        have := Nat.div_lt_self (Nat.pos_of_ne_zero h0) (by norm_num : (1:Nat) < 10)
        omega
      simp only [natDigitsAux, if_neg h0, List.foldl_append, List.foldl_cons,
        List.foldl_nil, List.length_append, List.length_cons, List.length_nil]
      rw [ih (n / 10) acc hdiv, digitCh_toNat _ hd]
      have hmod : 48 + n % 10 - 48 = n % 10 := by omega
      rw [hmod, pow_succ]
      have := Nat.div_add_mod n 10
      ring_nf
      omega

theorem digitsToNat_natDigits (n : Nat) : digitsToNat (natDigits n) = n := by
  by_cases h0 : n = 0
  · subst h0; decide
  · unfold digitsToNat natDigits
    rw [if_neg h0, foldl_natDigitsAux (n + 1) n 0 (Nat.le_succ n)]
    simp

theorem natDigits_isDigit (n : Nat) : ∀ c ∈ natDigits n, c.isDigit = true := by
  have aux : ∀ (fuel m : Nat), ∀ c ∈ natDigitsAux fuel m, c.isDigit = true := by
    intro fuel
    induction fuel with
    | zero => intro m c hc; simp [natDigitsAux] at hc
    | succ fuel ih =>
      intro m c hc
      by_cases h0 : m = 0
      · subst h0; simp [natDigitsAux] at hc
      · simp only [natDigitsAux, if_neg h0, List.mem_append, List.mem_singleton] at hc
        rcases hc with hc | rfl
        · exact ih _ c hc
        · exact digitCh_isDigit _ (Nat.mod_lt _ (by norm_num))
  unfold natDigits
  split
  · intro c hc; simp at hc; subst hc; decide
  · exact aux _ _

theorem natDigits_ne_nil (n : Nat) : natDigits n ≠ [] := by
  unfold natDigits
  split
  · simp
  · next h0 =>
    unfold natDigitsAux
    rw [if_neg h0]
    simp

theorem isDigit_ne_cr {c : Char} (h : c.isDigit = true) : c ≠ '\r' := by
  intro rfl_eq
  subst rfl_eq
  simp [Char.isDigit] at h

theorem takeDigits_all {ds : List Char} (h : ∀ c ∈ ds, c.isDigit = true) :
    takeDigits ds = ds := by
  induction ds with
  | nil => rfl
  | cons c cs ih =>
    simp only [takeDigits, if_pos (h c (by simp))]
    rw [ih (fun d hd => h d (by simp [hd]))]

theorem matchesInsensAt_of {x p : List Char} (r : List Char)
    (h : x.map Char.toLower = p) : matchesInsensAt (x ++ r) p = true := by
  induction x generalizing p with
  | nil => subst h; simp [matchesInsensAt]
  | cons c cs ih =>
    subst h
    simp only [List.map_cons, List.cons_append, matchesInsensAt, Bool.and_eq_true]
    exact ⟨by simp, ih rfl⟩

theorem parseContentLength_exact {hd : List Char} (ds : List Char)
    (hmap : hd.map Char.toLower = clPattern)
    (hds : ∀ c ∈ ds, c.isDigit = true) (hne : ds ≠ []) :
    parseContentLength (hd ++ ds) = some (digitsToNat ds) := by
  cases hd with
  | nil => exact absurd hmap.symm (by decide)
  | cons c cs =>
    have hmatch : matchesInsensAt ((c :: cs) ++ ds) clPattern = true :=
      matchesInsensAt_of ds hmap
    have hlen : clPattern.length = (c :: cs).length := by
      rw [← hmap, List.length_map]
    simp only [List.cons_append] at hmatch ⊢
    unfold parseContentLength
    rw [if_pos hmatch, hlen]
    rw [show c :: (cs ++ ds) = (c :: cs) ++ ds from rfl, List.drop_left,
      takeDigits_all hds]
    simp [List.isEmpty_iff, hne]

theorem findSub_first (hd tail : List Char) (hcr : ∀ c ∈ hd, c ≠ '\r') :
    findSub (hd ++ ('\r' :: '\n' :: '\r' :: '\n' :: tail)) = some hd.length := by
  induction hd with
  | nil =>
    simp only [List.nil_append, List.length_nil]
    unfold findSub
    rw [if_pos (show startsWith ('\r' :: '\n' :: '\r' :: '\n' :: tail) term4 = true from
      startsWith_self_append term4 tail)]
  | cons c cs ih =>
    have hc : c ≠ '\r' := hcr c (by simp)
    simp only [List.cons_append]
    unfold findSub
    rw [if_neg (by simp [startsWith, term4, hc]), ih (fun d hd => hcr d (by simp [hd]))]
    simp

theorem byteLength_ascii {content : List Char} (h : ∀ c ∈ content, c.toNat < 128) :
    byteLength content = content.length := by
  induction content with
  | nil => rfl
  | cons c cs ih =>
    have hc : utf8Width c = 1 := by simp [utf8Width, h c (by simp)]
    simp only [byteLength, List.map_cons, List.sum_cons, List.length_cons] at *
    rw [hc, ih (fun d hd => h d (by simp [hd]))]
    omega

theorem encodeFrame_shape (content rest : List Char) :
    encodeFrame content ++ rest
      = ("Content-Length: ".data ++ natDigits (byteLength content))
        ++ ('\r' :: '\n' :: '\r' :: '\n' :: (content ++ rest)) := by
  simp [encodeFrame, term4, List.append_assoc]

theorem stepBuf_encodeFrame (content rest : List Char)
    (hascii : byteLength content = content.length) :
    stepBuf (encodeFrame content ++ rest) = some (some content, rest) := by
  set hdr : List Char := "Content-Length: ".data ++ natDigits (byteLength content) with hhdr
  have hcr : ∀ c ∈ hdr, c ≠ '\r' := by
    intro c hc
    rw [hhdr] at hc
    rcases List.mem_append.mp hc with hc | hc
    · have hall : ∀ c ∈ "Content-Length: ".data, c ≠ '\r' := by decide
      exact hall c hc
    · exact isDigit_ne_cr (natDigits_isDigit _ c hc)
  have hshape : encodeFrame content ++ rest
      = hdr ++ ('\r' :: '\n' :: '\r' :: '\n' :: (content ++ rest)) := by
    rw [encodeFrame_shape, hhdr]
  have hfind : findSub (encodeFrame content ++ rest) = some hdr.length := by
    rw [hshape]
    exact findSub_first hdr (content ++ rest) hcr
  rw [stepBuf_of_findSub hfind]
  have htake : (encodeFrame content ++ rest).take hdr.length = hdr := by
    rw [hshape]
    exact List.take_left hdr _
  have hparse : parseContentLength ((encodeFrame content ++ rest).take hdr.length)
      = some content.length := by
    rw [htake, hhdr,
      parseContentLength_exact (natDigits (byteLength content)) (by decide)
        (natDigits_isDigit _) (natDigits_ne_nil _),
      digitsToNat_natDigits, hascii]
  rw [stepBufAt_of_parse_some hparse]
  have hlen4 : (hdr ++ term4).length = hdr.length + 4 := by simp [term4]
  have hdrop : (encodeFrame content ++ rest).drop (hdr.length + 4) = content ++ rest := by
    rw [hshape, show ('\r' :: '\n' :: '\r' :: '\n' :: (content ++ rest))
        = term4 ++ (content ++ rest) from rfl, ← List.append_assoc, ← hlen4, List.drop_left]
  have hlentot : (encodeFrame content ++ rest).length
      = hdr.length + 4 + content.length + rest.length := by
    rw [hshape, show ('\r' :: '\n' :: '\r' :: '\n' :: (content ++ rest))
        = term4 ++ (content ++ rest) from rfl]
    simp only [List.length_append, term4, List.length_cons, List.length_nil]
    omega
  rw [if_neg (by omega)]
  rw [hdrop, List.take_left content rest]
  have hdrop2 : (encodeFrame content ++ rest).drop (hdr.length + 4 + content.length) = rest := by
    rw [hshape, show ('\r' :: '\n' :: '\r' :: '\n' :: (content ++ rest))
        = term4 ++ (content ++ rest) from rfl]
    rw [← List.append_assoc, ← List.append_assoc]
    have hl : ((hdr ++ term4) ++ content).length = hdr.length + 4 + content.length := by
      simp only [List.length_append, term4, List.length_cons, List.length_nil]
      try omega
    rw [← hl, List.drop_left]
  rw [hdrop2]

theorem processBuffer_encodeFrame (content rest : List Char) (recv : List (List Char))
    (hascii : byteLength content = content.length) :
    processBuffer (encodeFrame content ++ rest) recv
      = processBuffer rest (recv ++ [content]) :=
  processBuffer_some recv (stepBuf_encodeFrame content rest hascii)

theorem processBuffer_nil (recv : List (List Char)) : processBuffer [] recv = ([], recv) :=
  processBuffer_none recv (by simp [stepBuf, findSub])

theorem processBuffer_encodeFrame_only (content : List Char) (recv : List (List Char))
    (hascii : byteLength content = content.length) :
    processBuffer (encodeFrame content) recv = ([], recv ++ [content]) := by
  have h := processBuffer_encodeFrame content [] recv hascii
  rw [List.append_nil] at h
  rw [h, processBuffer_nil]

/-- C2: the framer round-trip holds for messages whose serialized JSON body
is pure ASCII: encoding with `Content-Length` equal to the UTF-8 byte
length and decoding the stream under any chunking (including one character
at a time) yields exactly the original body.  (As stated for *every*
message the claim fails: the decoder slices the buffer by *character*
count against the byte-valued `Content-Length`, so a non-ASCII body stalls
— see the counterexample.) -/
theorem framer_roundTrip_ascii (content : List Char) (chunks : List (List Char))
    (hascii : ∀ c ∈ content, c.toNat < 128)
    (hjoin : chunks.flatten = encodeFrame content) :
    decodeStream chunks = ([], [content]) := by
  rw [decodeStream_flatten, hjoin,
    processBuffer_encodeFrame_only content [] (byteLength_ascii hascii)]
  simp

/-- Witness for C2's amended theorem: a concrete ASCII body, delivered one
character per chunk, decodes back to itself. -/
theorem framer_roundTrip_ascii_witness :
    decodeStream ((encodeFrame jsonBodyEx).map (fun c => [c])) = ([], [jsonBodyEx]) :=
  framer_roundTrip_ascii jsonBodyEx ((encodeFrame jsonBodyEx).map (fun c => [c]))
    (by decide) (by decide)

/-- C2 counterexample: for the non-ASCII body, encoding then decoding the
full stream in a single chunk does *not* reproduce the message — the
framer never emits it (`Content-Length` counts bytes, the buffer is
indexed by characters, so the message never appears complete). -/
theorem framer_roundTrip_counterexample :
    (decodeStream [encodeFrame nonAsciiBody]).2 ≠ [nonAsciiBody] := by decide

/-- C9 (amended): for frames whose bodies are pure ASCII, (a) a header
block lacking a valid `Content-Length` is discarded at its terminator and
a following well-formed frame still decodes, and (b) two complete frames
present in a single buffered read are both extracted in one
`processBuffer` pass.  (As frozen — "any well-formed message that
follows" — the claim fails: a well-formed frame with a non-ASCII body is
resynchronized past but never decoded, the same byte-versus-character
defect as C2; see the counterexample.) -/
theorem framer_resync_and_pipeline :
    (∀ junk content : List Char, (∀ c ∈ junk, c ≠ '\r') →
      parseContentLength junk = none → (∀ c ∈ content, c.toNat < 128) →
      decodeStream [junk ++ ('\r' :: '\n' :: '\r' :: '\n' :: encodeFrame content)]
        = ([], [content]))
    ∧ (∀ c₁ c₂ : List Char, (∀ c ∈ c₁, c.toNat < 128) → (∀ c ∈ c₂, c.toNat < 128) →
      decodeStream [encodeFrame c₁ ++ encodeFrame c₂] = ([], [c₁, c₂])) := by
  constructor
  · intro junk content hcr hp hascii
    rw [decodeStream_flatten]
    simp only [List.flatten_cons, List.flatten_nil, List.append_nil]
    have hfind := findSub_first junk (encodeFrame content) hcr
    have hlen4 : (junk ++ term4).length = junk.length + 4 := by
      simp only [List.length_append, term4, List.length_cons, List.length_nil]
      try omega
    have hdropj : (junk ++ ('\r' :: '\n' :: '\r' :: '\n' :: encodeFrame content)).drop
        (junk.length + 4) = encodeFrame content := by
      rw [show junk ++ ('\r' :: '\n' :: '\r' :: '\n' :: encodeFrame content)
          = (junk ++ term4) ++ encodeFrame content by simp [term4, List.append_assoc],
        ← hlen4, List.drop_left]
    have hstep : stepBuf (junk ++ ('\r' :: '\n' :: '\r' :: '\n' :: encodeFrame content))
        = some (none, encodeFrame content) := by
      rw [stepBuf_of_findSub hfind,
        stepBufAt_of_parse_none (by rw [List.take_left junk]; exact hp), hdropj]
    rw [processBuffer_some [] hstep]
    show processBuffer (encodeFrame content) [] = ([], [content])
    rw [processBuffer_encodeFrame_only content [] (byteLength_ascii hascii)]
    simp
  · intro c₁ c₂ h₁ h₂
    rw [decodeStream_flatten]
    simp only [List.flatten_cons, List.flatten_nil, List.append_nil]
    rw [processBuffer_encodeFrame c₁ (encodeFrame c₂) [] (byteLength_ascii h₁),
      processBuffer_encodeFrame_only c₂ ([] ++ [c₁]) (byteLength_ascii h₂)]
    simp

/-- C9 counterexample: the frame that follows is *well-formed* — framed
exactly as `sendRequest` frames it, `Content-Length` equal to the UTF-8
byte length of its body — but its body contains `é`.  The framer discards
the malformed header block and resynchronizes at the next terminator, yet
never yields the message (and, pipelined behind a good frame, the
non-ASCII message is likewise never extracted): `Content-Length` counts
bytes while the buffer is sliced by characters, so the frame never looks
complete. -/
theorem framer_resync_counterexample :
    (decodeStream ["X-Custom: 1".data
        ++ ('\r' :: '\n' :: '\r' :: '\n' :: encodeFrame nonAsciiBody)]).2
      ≠ [nonAsciiBody]
    ∧ (decodeStream [encodeFrame jsonBodyEx ++ encodeFrame nonAsciiBody]).2
      ≠ [jsonBodyEx, nonAsciiBody] :=
  ⟨by decide, by decide⟩

/-- Witness for C9's amended theorem: a malformed header block
(`X-Custom: 1` has no `Content-Length`) followed by a good ASCII frame
yields the good message, and a read containing two back-to-back ASCII
frames yields both. -/
theorem framer_resync_and_pipeline_witness :
    decodeStream ["X-Custom: 1".data
        ++ ('\r' :: '\n' :: '\r' :: '\n' :: encodeFrame jsonBodyEx2)]
      = ([], [jsonBodyEx2])
    ∧ decodeStream [encodeFrame jsonBodyEx ++ encodeFrame jsonBodyEx2]
      = ([], [jsonBodyEx, jsonBodyEx2]) :=
  ⟨framer_resync_and_pipeline.1 "X-Custom: 1".data jsonBodyEx2
      (by decide) (by decide) (by decide),
    framer_resync_and_pipeline.2 jsonBodyEx jsonBodyEx2 (by decide) (by decide)⟩

/-! ### Endpoint-namer lemmas -/

/-- Anchor: the model reproduces `md5("")`. -/
theorem md5Hex_empty : md5Hex (strBytes "".data) = "d41d8cd98f00b204e9800998ecf8427e".data := by
  decide

/-- Anchor: the model reproduces `md5("abc")`. -/
theorem md5Hex_abc :
    md5Hex (strBytes "abc".data) = "900150983cd24fb0d6963f7d28e17f72".data := by
  decide

theorem bytesToHex_length (bs : List Nat) : (bytesToHex bs).length = 2 * bs.length := by
  induction bs with
  | nil => rfl
  | cons b rest ih =>
    simp only [bytesToHex, List.map_cons, List.flatten_cons, List.length_append,
      byteHex, List.length_cons, List.length_nil] at *
    omega

theorem hexDigit_isLowerHex : ∀ d < 16, isLowerHex (hexDigit d) = true := by decide

theorem bytesToHex_isLowerHex {bs : List Nat} (hb : ∀ b ∈ bs, b < 256) :
    ∀ c ∈ bytesToHex bs, isLowerHex c = true := by
  induction bs with
  | nil => intro c hc; simp [bytesToHex] at hc
  | cons b rest ih =>
    intro c hc
    simp only [bytesToHex, List.map_cons, List.flatten_cons, List.mem_append] at hc
    rcases hc with hc | hc
    · have hb256 : b < 256 := hb b (by simp)
      simp only [byteHex, List.mem_cons, List.not_mem_nil, or_false] at hc
      rcases hc with rfl | rfl
      · exact hexDigit_isLowerHex _ (by omega)
      · exact hexDigit_isLowerHex _ (Nat.mod_lt _ (by norm_num))
    · exact ih (fun x hx => hb x (by simp [hx])) c hc

/-- C3 (amended): `generatePipeName` is a pure function of the normalized
path with the stated `prefix ++ hash8 (++ suffix)` shape; the two sources'
copies agree; roots equal up to case collide on win32 (the path is
lowercased first); on a case-sensitive platform two roots yield distinct
addresses *whenever their 8-hex-character MD5 prefixes differ* (the
unqualified claim fails: such prefixes can collide — see the
counterexample); with no workspace, the address embeds the 8 lowercase hex
characters of the 4 random bytes in place of the hash. -/
theorem pipeName_deterministic_amended :
    (∀ ws rand, generatePipeName true (some ws) rand
        = "\\\\.\\pipe\\forge-lsp-".data ++ (md5Hex (strBytes (ws.map Char.toLower))).take 8)
    ∧ (∀ ws rand, generatePipeName false (some ws) rand
        = "/tmp/forge-lsp-".data ++ (md5Hex (strBytes ws)).take 8 ++ ".sock".data)
    ∧ (∀ isWin32 cwd rand, clientGeneratePipeName isWin32 cwd
        = generatePipeName isWin32 (some cwd) rand)
    ∧ (∀ ws₁ ws₂ r₁ r₂, ws₁.map Char.toLower = ws₂.map Char.toLower →
        generatePipeName true (some ws₁) r₁ = generatePipeName true (some ws₂) r₂)
    ∧ (∀ ws₁ ws₂ r₁ r₂,
        (md5Hex (strBytes ws₁)).take 8 ≠ (md5Hex (strBytes ws₂)).take 8 →
        generatePipeName false (some ws₁) r₁ ≠ generatePipeName false (some ws₂) r₂)
    ∧ (∀ rand, rand.length = 4 → (∀ b ∈ rand, b < 256) →
        generatePipeName false none rand
          = "/tmp/forge-lsp-".data ++ bytesToHex rand ++ ".sock".data
        ∧ (bytesToHex rand).length = 8
        ∧ ∀ c ∈ bytesToHex rand, isLowerHex c = true) := by
  refine ⟨fun ws rand => rfl, fun ws rand => rfl, ?_, ?_, ?_, ?_⟩
  · intro isWin32 cwd rand
    cases isWin32 <;> rfl
  · intro ws₁ ws₂ r₁ r₂ h
    show "\\\\.\\pipe\\forge-lsp-".data ++ (md5Hex (strBytes (ws₁.map Char.toLower))).take 8
      = "\\\\.\\pipe\\forge-lsp-".data ++ (md5Hex (strBytes (ws₂.map Char.toLower))).take 8
    rw [h]
  · intro ws₁ ws₂ r₁ r₂ hne heq
    have heq' : "/tmp/forge-lsp-".data ++ (md5Hex (strBytes ws₁)).take 8 ++ ".sock".data
        = "/tmp/forge-lsp-".data ++ (md5Hex (strBytes ws₂)).take 8 ++ ".sock".data := heq
    exact hne (List.append_cancel_left (List.append_cancel_right heq'))
  · intro rand hlen hbound
    exact ⟨rfl, by rw [bytesToHex_length, hlen], bytesToHex_isLowerHex hbound⟩

/-- C3 counterexample: two workspace roots differing only in letter case
whose addresses coincide on a case-sensitive (non-win32) platform — their
MD5 8-hex-character prefixes collide. -/
theorem pipeName_caseSensitive_counterexample :
    collisionPath1 ≠ collisionPath2
    ∧ collisionPath1.map Char.toLower = collisionPath2.map Char.toLower
    ∧ generatePipeName false (some collisionPath1) []
      = generatePipeName false (some collisionPath2) [] :=
  ⟨by decide, by decide, by decide⟩

/-- Witness for C3's amended theorem at concrete inputs: case-variant
roots collide on win32; distinct-hash roots get distinct Unix socket
paths; the no-workspace fallback embeds 8 lowercase hex characters. -/
theorem pipeName_deterministic_witness :
    generatePipeName true (some "C:\\Ws".data) []
      = generatePipeName true (some "c:\\wS".data) []
    ∧ generatePipeName false (some "/home/dev/ws".data) []
      ≠ generatePipeName false (some "/home/dev/ws2".data) []
    ∧ (generatePipeName false none [222, 173, 190, 239]
        = "/tmp/forge-lsp-".data ++ bytesToHex [222, 173, 190, 239] ++ ".sock".data
      ∧ (bytesToHex [222, 173, 190, 239]).length = 8
      ∧ ∀ c ∈ bytesToHex [222, 173, 190, 239], isLowerHex c = true) :=
  ⟨pipeName_deterministic_amended.2.2.2.1 "C:\\Ws".data "c:\\wS".data [] [] (by decide),
    pipeName_deterministic_amended.2.2.2.2.1 "/home/dev/ws".data "/home/dev/ws2".data [] []
      (by decide),
    pipeName_deterministic_amended.2.2.2.2.2 [222, 173, 190, 239] (by decide) (by decide)⟩

/-! ### Resolver and handler lemmas -/

theorem jsFalsy_false {s : String} (hs : s ≠ "") : ¬jsFalsy (some s) = true := by
  simp [jsFalsy, hs]

theorem httpFindReferences_some (eng : Engine) {s : String} (hs : s ≠ "") :
    httpFindReferences eng (some s) = httpOnSymbols eng s (eng.workspaceSymbols s) := by
  unfold httpFindReferences
  rw [if_neg (jsFalsy_false hs)]
  rfl

theorem handleFindReferencesV1_some (eng : Engine) (docs : List TextDocument)
    {s : String} (hs : s ≠ "") :
    handleFindReferencesV1 eng docs (some s)
      = pipeV1OnLoc eng s
          (firstSome (wsExactV1 (eng.workspaceSymbols s) s)
            (findSymbolInDocuments docs s)) := by
  unfold handleFindReferencesV1
  rw [if_neg (jsFalsy_false hs)]
  rfl

theorem handleFindReferencesV2_some (eng : Engine) (docs : List TextDocument)
    {s : String} (hs : s ≠ "") :
    handleFindReferencesV2 eng docs (some s)
      = pipeV2OnLoc eng s (findSymbolLocation eng docs s) := by
  unfold handleFindReferencesV2
  rw [if_neg (jsFalsy_false hs)]
  rfl

theorem docTreeLookup_eq (doc : TextDocument) (symbolName : String) :
    docTreeLookup doc symbolName = findSymbolInTree (doc.symbols.getD []) symbolName := by
  unfold docTreeLookup
  cases doc.symbols <;> rfl

/-- C4 (amended): `findSymbolInDocuments` — the earlier variant, which the
claim's description matches — coincides exactly with the claim's scan:
skip only non-file-backed documents, symbol tree first, then the first
hover-confirmed regex match, `NotFound` otherwise.  (`findSymbolLocation`,
the later variant, differs — see the counterexample: it also skips
documents outside the workspace and probes hover only at the first regex
match of each document.) -/
theorem docScan_matches_spec (docs : List TextDocument) (symbolName : String) :
    findSymbolInDocuments docs symbolName = specResolverScan docs symbolName := by
  unfold findSymbolInDocuments specResolverScan
  congr 1
  funext doc
  rw [docTreeLookup_eq]

/-- C4 counterexample: (a) a file-backed document outside the workspace
whose outline contains the symbol — the claim's scan finds it, but
`findSymbolLocation`'s scan skips the document and resolution fails;
(b) a document whose first regex match lacks hover while a later one has
it — the claim's scan returns the later match, `findSymbolLocation`'s
returns nothing. -/
theorem docScan_counterexample :
    (scanDocsV2 [outsideDoc] "greetUser" = none
      ∧ specResolverScan [outsideDoc] "greetUser" = some ("file:///ext/lib.ts", ⟨3, 9⟩)
      ∧ findSymbolLocation emptyEngine [outsideDoc] "greetUser" = none)
    ∧ (scanDocsV2 [hoverLaterDoc] "greetUser" = none
      ∧ specResolverScan [hoverLaterDoc] "greetUser" = some ("file:///ws/a.ts", ⟨1, 0⟩)) :=
  ⟨⟨by decide, by decide, by decide⟩, by decide, by decide⟩

/-- C1 (amended): both pipe variants accept from the workspace symbol
index only an exact, case-sensitive name match — a returned location is
some result's location with exactly the queried name, and stage 1 yields
nothing when no result matches exactly; the HTTP variant instead uses the
*first* index result whatever its name (see the counterexample). -/
theorem resolver_exact_match_amended :
    (∀ (symbols : Option (List SymbolInformation)) (symbolName uri : String) (p : Pos),
      wsExactV2 symbols symbolName = some (uri, p) →
      ∃ s, s ∈ symbols.getD [] ∧ s.name = symbolName ∧ uri = s.uri ∧ p = s.range.start)
    ∧ (∀ (symbols : Option (List SymbolInformation)) (symbolName : String),
      (∀ s ∈ symbols.getD [], s.name ≠ symbolName) → wsExactV2 symbols symbolName = none)
    ∧ (∀ (symbols : Option (List SymbolInformation)) (symbolName : String),
      wsExactV1 symbols symbolName = wsExactV2 symbols symbolName)
    ∧ (∀ (eng : Engine) (s : String) (sym : SymbolInformation)
        (rest : List SymbolInformation), s ≠ "" →
      eng.workspaceSymbols s = some (sym :: rest) →
      (httpFindReferences eng (some s)).1.okSymbolName = some sym.name) := by
  refine ⟨?_, ?_, ?_, ?_⟩
  · intro symbols symbolName uri p h
    unfold wsExactV2 at h
    cases hf : (symbols.getD []).find? (fun s => s.name = symbolName) with
    | none => rw [hf] at h; exact absurd h (by simp)
    | some s =>
      rw [hf] at h
      have hname : s.name = symbolName := by
        have := List.find?_some hf
        simpa using this
      have hmem : s ∈ symbols.getD [] := List.mem_of_find?_eq_some hf
      have hup : (s.uri, s.range.start) = (uri, p) := by simpa using h
      exact ⟨s, hmem, hname, (congrArg Prod.fst hup).symm, (congrArg Prod.snd hup).symm⟩
  · intro symbols symbolName hnone
    unfold wsExactV2
    rw [List.find?_eq_none.mpr (fun s hs => by simp [hnone s hs])]
    rfl
  · intro symbols symbolName
    unfold wsExactV1 wsExactV2
    cases symbols with
    | none => rfl
    | some syms =>
      cases syms with
      | nil => rfl
      | cons a l =>
        show (if 0 < (a :: l).length then
            ((a :: l).find? fun s => s.name = symbolName).map fun s => (s.uri, s.range.start)
          else none)
          = ((a :: l).find? fun s => s.name = symbolName).map fun s => (s.uri, s.range.start)
        rw [if_pos (by simp)]
  · intro eng s sym rest hs h
    rw [httpFindReferences_some eng hs, h]
    show (httpOnRefs sym (eng.references sym.uri sym.range.start)).1.okSymbolName
      = some sym.name
    cases href : eng.references sym.uri sym.range.start with
    | none => rfl
    | some refs => cases refs <;> rfl

/-- C1 counterexample: the index answers `greetUser` with the single
non-exact result `greetUserHelper`; the claim requires that no location be
returned from this stage, but the HTTP variant serves a 200 whose symbol
is `greetUserHelper` — while the pipe-variant stage correctly rejects. -/
theorem resolver_exact_match_counterexample :
    (httpFindReferences fuzzyEngine (some "greetUser")).1
      = .okNoRefs ⟨"greetUserHelper", "Function", "file:///ws/helper.ts", ⟨⟨5, 0⟩, ⟨5, 15⟩⟩⟩
          [] "Symbol found but no references"
    ∧ ("greetUserHelper" : String) ≠ "greetUser"
    ∧ wsExactV2 (fuzzyEngine.workspaceSymbols "greetUser") "greetUser" = none :=
  ⟨by decide, by decide, by decide⟩

/-- Witness for C1's amended theorem at concrete inputs: an exact match is
surfaced with its own location, a no-exact-match index yields nothing at
stage 1, and the HTTP variant surfaces the first (non-matching) result. -/
theorem resolver_exact_match_witness :
    (∃ s, s ∈ [(⟨"greetUser", 11, "file:///ws/test-sample.ts", ⟨⟨3, 9⟩, ⟨3, 18⟩⟩⟩
        : SymbolInformation)]
      ∧ s.name = "greetUser" ∧ "file:///ws/test-sample.ts" = s.uri
      ∧ (⟨3, 9⟩ : Pos) = s.range.start)
    ∧ wsExactV2 (some [⟨"greetUserHelper", 11, "file:///ws/helper.ts", ⟨⟨5, 0⟩, ⟨5, 15⟩⟩⟩])
        "greetUser" = none
    ∧ (httpFindReferences fuzzyEngine (some "greetUser")).1.okSymbolName
        = some "greetUserHelper" :=
  ⟨resolver_exact_match_amended.1
      (some [⟨"greetUser", 11, "file:///ws/test-sample.ts", ⟨⟨3, 9⟩, ⟨3, 18⟩⟩⟩])
      "greetUser" "file:///ws/test-sample.ts" ⟨3, 9⟩ (by decide),
    resolver_exact_match_amended.2.1
      (some [⟨"greetUserHelper", 11, "file:///ws/helper.ts", ⟨⟨5, 0⟩, ⟨5, 15⟩⟩⟩])
      "greetUser" (by decide),
    resolver_exact_match_amended.2.2.2 fuzzyEngine "greetUser"
      ⟨"greetUserHelper", 11, "file:///ws/helper.ts", ⟨⟨5, 0⟩, ⟨5, 15⟩⟩⟩ [] (by decide)
      (by decide)⟩

/-- C5 (code bug): the README and both test scripts exercise
`POST /api/textDocument/references`, but `startServer` registers only the
health route and `POST /api/findReferences`; such a request falls through
to the framework's default 404, not the specified 200/400 behaviour. -/
theorem httpRoutes_no_textDocument_references :
    ("POST", "/api/textDocument/references") ∉ httpRoutes := by decide

/-- C6: a missing or empty `symbolName` is rejected by validation — HTTP
400 with `{error, example}` and an *empty engine-call list*; both pipe
variants throw the missing-field error, for every engine and document
state (so no engine symbol lookup is involved). -/
theorem findReferences_validation :
    (∀ (eng : Engine) (symbolName? : Option String), jsFalsy symbolName? = true →
      httpFindReferences eng symbolName?
        = (.badRequest "Missing required field: symbolName" "CustomeFormField", []))
    ∧ (∀ (eng : Engine) (docs : List TextDocument) (symbolName? : Option String),
      jsFalsy symbolName? = true →
      handleFindReferencesV1 eng docs symbolName?
        = .error "Missing required field: symbolName")
    ∧ (∀ (eng : Engine) (docs : List TextDocument) (symbolName? : Option String),
      jsFalsy symbolName? = true →
      handleFindReferencesV2 eng docs symbolName?
        = .error "Missing required field: symbolName") := by
  refine ⟨?_, ?_, ?_⟩
  · intro eng s? h
    unfold httpFindReferences
    rw [if_pos h]
  · intro eng docs s? h
    unfold handleFindReferencesV1
    rw [if_pos h]
  · intro eng docs s? h
    unfold handleFindReferencesV2
    rw [if_pos h]

/-- Witness for C6: the empty string and the absent field are both
rejected, against a concrete engine. -/
theorem findReferences_validation_witness :
    httpFindReferences emptyEngine (some "")
      = (.badRequest "Missing required field: symbolName" "CustomeFormField", [])
    ∧ handleFindReferencesV1 emptyEngine [] none
      = .error "Missing required field: symbolName"
    ∧ handleFindReferencesV2 emptyEngine [] (some "")
      = .error "Missing required field: symbolName" :=
  ⟨findReferences_validation.1 emptyEngine (some "") (by decide),
    findReferences_validation.2.1 emptyEngine [] none (by decide),
    findReferences_validation.2.2 emptyEngine [] (some "") (by decide)⟩

/-- C7: a non-empty `symbolName` that resolves to no symbol yields the
not-found outcome: HTTP 404 `{error, symbolName, message}` (a shape
carrying no references field), and a thrown error — surfaced as a
JSON-RPC error — on both pipe variants.  The handlers are total
functions: the serving process does not crash. -/
theorem findReferences_notFound :
    (∀ (eng : Engine) (s : String), s ≠ "" →
      (eng.workspaceSymbols s = none ∨ eng.workspaceSymbols s = some []) →
      httpFindReferences eng (some s)
        = (.notFound "Symbol not found" s
            s!"No symbol named \"{s}\" found in the workspace",
          ["executeWorkspaceSymbolProvider"]))
    ∧ (∀ (eng : Engine) (docs : List TextDocument) (s : String), s ≠ "" →
      wsExactV1 (eng.workspaceSymbols s) s = none →
      findSymbolInDocuments docs s = none →
      handleFindReferencesV1 eng docs (some s)
        = .error s!"No symbol named \"{s}\" found in the workspace or open documents")
    ∧ (∀ (eng : Engine) (docs : List TextDocument) (s : String), s ≠ "" →
      findSymbolLocation eng docs s = none →
      handleFindReferencesV2 eng docs (some s)
        = .error s!"No symbol named \"{s}\" found in the workspace") := by
  refine ⟨?_, ?_, ?_⟩
  · intro eng s hs h
    rw [httpFindReferences_some eng hs]
    rcases h with h | h <;> rw [h] <;> rfl
  · intro eng docs s hs h1 h2
    rw [handleFindReferencesV1_some eng docs hs, h1, h2]
    rfl
  · intro eng docs s hs h
    rw [handleFindReferencesV2_some eng docs hs, h]
    rfl

/-- Witness for C7: `NoSuchSymbolXYZ` against an engine with an empty
index and no open documents. -/
theorem findReferences_notFound_witness :
    httpFindReferences emptyEngine (some "NoSuchSymbolXYZ")
      = (.notFound "Symbol not found" "NoSuchSymbolXYZ"
          "No symbol named \"NoSuchSymbolXYZ\" found in the workspace",
        ["executeWorkspaceSymbolProvider"])
    ∧ handleFindReferencesV1 emptyEngine [] (some "NoSuchSymbolXYZ")
      = .error "No symbol named \"NoSuchSymbolXYZ\" found in the workspace or open documents"
    ∧ handleFindReferencesV2 emptyEngine [] (some "NoSuchSymbolXYZ")
      = .error "No symbol named \"NoSuchSymbolXYZ\" found in the workspace" :=
  ⟨findReferences_notFound.1 emptyEngine "NoSuchSymbolXYZ" (by decide) (Or.inl rfl),
    findReferences_notFound.2.1 emptyEngine [] "NoSuchSymbolXYZ" (by decide) rfl rfl,
    findReferences_notFound.2.2 emptyEngine [] "NoSuchSymbolXYZ" (by decide) rfl⟩

/-- C8: for a validly resolved symbol, a zero-reference engine result
(`undefined` or `[]`) becomes a *successful* response with an empty
references list, never an error; and a non-empty engine list is passed
through as the response's references — the same list, so with no
deduplication, filtering or reordering — in every variant. -/
theorem references_passthrough :
    (∀ (eng : Engine) (s : String) (sym : SymbolInformation)
        (rest : List SymbolInformation), s ≠ "" →
      eng.workspaceSymbols s = some (sym :: rest) →
      ((eng.references sym.uri sym.range.start = none ∨
          eng.references sym.uri sym.range.start = some []) →
        httpFindReferences eng (some s)
          = (.okNoRefs (serializeHttpSymbol sym) [] "Symbol found but no references",
            ["executeWorkspaceSymbolProvider", "executeReferenceProvider"]))
      ∧ (∀ (r : Location) (rs : List Location),
        eng.references sym.uri sym.range.start = some (r :: rs) →
        httpFindReferences eng (some s)
          = (.okRefs (serializeHttpSymbol sym) (r :: rs) (r :: rs).length,
            ["executeWorkspaceSymbolProvider", "executeReferenceProvider"])))
    ∧ (∀ (eng : Engine) (docs : List TextDocument) (s uri : String) (position : Pos),
        s ≠ "" →
      firstSome (wsExactV1 (eng.workspaceSymbols s) s) (findSymbolInDocuments docs s)
          = some (uri, position) →
      ((eng.references uri position = none ∨ eng.references uri position = some []) →
        handleFindReferencesV1 eng docs (some s)
          = .ok (.noRefs ⟨s, uri, position⟩ [] "Symbol found but no references"))
      ∧ (∀ (r : Location) (rs : List Location),
        eng.references uri position = some (r :: rs) →
        handleFindReferencesV1 eng docs (some s)
          = .ok (.withRefs ⟨s, uri, position⟩ (r :: rs) (r :: rs).length)))
    ∧ (∀ (eng : Engine) (docs : List TextDocument) (s uri : String) (position : Pos),
        s ≠ "" →
      findSymbolLocation eng docs s = some (uri, position) →
      handleFindReferencesV2 eng docs (some s)
        = .ok ⟨⟨s, uri, position⟩, (eng.references uri position).getD [],
            ((eng.references uri position).map List.length).getD 0⟩) := by
  refine ⟨?_, ?_, ?_⟩
  · intro eng s sym rest hs h
    rw [httpFindReferences_some eng hs, h]
    constructor
    · intro hr
      show httpOnRefs sym (eng.references sym.uri sym.range.start) = _
      rcases hr with hr | hr <;> rw [hr] <;> rfl
    · intro r rs hr
      show httpOnRefs sym (eng.references sym.uri sym.range.start) = _
      rw [hr]
      rfl
  · intro eng docs s uri position hs hloc
    rw [handleFindReferencesV1_some eng docs hs, hloc]
    constructor
    · intro hr
      show pipeV1OnRefs s uri position (eng.references uri position) = _
      rcases hr with hr | hr <;> rw [hr] <;> rfl
    · intro r rs hr
      show pipeV1OnRefs s uri position (eng.references uri position) = _
      rw [hr]
      rfl
  · intro eng docs s uri position hs hloc
    rw [handleFindReferencesV2_some eng docs hs, hloc]
    unfold pipeV2OnLoc
    cases href : eng.references uri position <;> simp [href]

/-- Witness for C8: a zero-reference engine gives a 200 with `[]`; a
two-reference engine's list is passed through verbatim across the HTTP
and both pipe variants. -/
theorem references_passthrough_witness :
    httpFindReferences fuzzyEngine (some "greetUser")
      = (.okNoRefs ⟨"greetUserHelper", "Function", "file:///ws/helper.ts", ⟨⟨5, 0⟩, ⟨5, 15⟩⟩⟩
          [] "Symbol found but no references",
        ["executeWorkspaceSymbolProvider", "executeReferenceProvider"])
    ∧ handleFindReferencesV1 exactEngine [] (some "greetUser")
      = .ok (.withRefs ⟨"greetUser", "file:///ws/test-sample.ts", ⟨3, 9⟩⟩
          [⟨"file:///ws/test-sample.ts", ⟨⟨3, 9⟩, ⟨3, 18⟩⟩⟩,
            ⟨"file:///ws/test-sample.ts", ⟨⟨8, 18⟩, ⟨8, 27⟩⟩⟩] 2)
    ∧ handleFindReferencesV2 exactEngine [] (some "greetUser")
      = .ok ⟨⟨"greetUser", "file:///ws/test-sample.ts", ⟨3, 9⟩⟩,
          (exactEngine.references "file:///ws/test-sample.ts" ⟨3, 9⟩).getD [],
          ((exactEngine.references "file:///ws/test-sample.ts" ⟨3, 9⟩).map
            List.length).getD 0⟩ :=
  ⟨((references_passthrough.1 fuzzyEngine "greetUser"
      ⟨"greetUserHelper", 11, "file:///ws/helper.ts", ⟨⟨5, 0⟩, ⟨5, 15⟩⟩⟩ [] (by decide)
      (by decide)).1 (Or.inr (by decide))),
    ((references_passthrough.2.1 exactEngine [] "greetUser" "file:///ws/test-sample.ts"
      ⟨3, 9⟩ (by decide) (by decide)).2
      ⟨"file:///ws/test-sample.ts", ⟨⟨3, 9⟩, ⟨3, 18⟩⟩⟩
      [⟨"file:///ws/test-sample.ts", ⟨⟨8, 18⟩, ⟨8, 27⟩⟩⟩] (by decide)),
    (references_passthrough.2.2 exactEngine [] "greetUser" "file:///ws/test-sample.ts"
      ⟨3, 9⟩ (by decide) (by decide))⟩

/-- C10: every successful result of the v2 pipe handler carries
`totalReferences` exactly equal to the length of its `references` array,
the zero-reference case included. -/
theorem totalReferences_consistent (eng : Engine) (docs : List TextDocument)
    (symbolName? : Option String) (r : FindReferencesResult)
    (h : handleFindReferencesV2 eng docs symbolName? = .ok r) :
    r.totalReferences = r.references.length := by
  cases symbolName? with
  | none => simp [handleFindReferencesV2, jsFalsy] at h
  | some s =>
    by_cases hs : s = ""
    · subst hs
      simp [handleFindReferencesV2, jsFalsy] at h
    · rw [handleFindReferencesV2_some eng docs hs] at h
      unfold pipeV2OnLoc at h
      split at h
      · exact absurd h (by simp)
      · next u p hp =>
        have hb := Except.ok.inj h
        subst hb
        cases href : eng.references u p <;> simp [href]

/-- Witness for C10: a concrete successful v2 run with two references. -/
theorem totalReferences_consistent_witness :
    witnessResult.totalReferences = witnessResult.references.length :=
  totalReferences_consistent exactEngine [] (some "greetUser") witnessResult (by decide)

end LspPoc
